import Mathlib

/-!
ASW: MJPEG camera stream server and serial remote control

A shallow embedding of `camera_control/camera_stream.cpp` (shared frame slot,
`handle_client`, `http_server`, the store and notification of the capture loop) and of
`remote_control/jetson_RC_control.cpp` (`uart_send_binary`), followed by the
properties established about them.

Conventions of the embedding.

* A byte is a natural number; text constants are turned into bytes by `ascii`.
* Socket and library calls whose outcome the program does not control (the
  return value of `send`, `recv`, `accept`, the outcome of `cv::imencode`, the
  value of the atomic stop flag at a given load) are inputs of the model.
* What a thread does to the outside world is recorded as a list of `Action`s,
  in program order. A `send` is recorded with the buffer it was given and the
  value it returned; the bytes written are the first `ret` bytes of the buffer.
* The 10 ms and 2 ms sleeps have no effect on any value and are left out.
-/

namespace ASW

/-- A sequence of octets. -/
abbrev Bytes := List Nat

/-- The bytes of an ASCII string literal. -/
def ascii (s : String) : Bytes := s.toList.map Char.toNat

/-! ## remote_control/jetson_RC_control.cpp -/

namespace RemoteControl

/-- The values an `int16_t` can hold. -/
def isInt16 (x : Int) : Prop := -32768 ≤ x ∧ x ≤ 32767

instance (x : Int) : Decidable (isInt16 x) := by unfold isInt16; infer_instance

/-- Conversion of an `int` value to `uint8_t` on assignment to `buf[i]`. -/
def toUint8 (x : Int) : Nat := (x % 256).toNat

/-- The expression `v & 0xFF` on the promoted `int`, stored into a `uint8_t`. -/
def lowByte (v : Int) : Nat := toUint8 (Int.land v 0xFF)

/-- The expression `(v >> 8) & 0xFF` on the promoted `int` (arithmetic shift),
stored into a `uint8_t`. -/
def highByte (v : Int) : Nat := toUint8 (Int.land (v >>> (8 : Nat)) 0xFF)

/-- The buffer `uart_send_binary` fills and hands to `write(fd, buf, 8)`
(lines 41-52). The file descriptor does not influence the bytes. -/
def uart_send_binary (left right steer : Int) : Bytes :=
  let b0 := toUint8 0xAA
  let b1 := lowByte left
  let b2 := highByte left
  let b3 := lowByte right
  let b4 := highByte right
  let b5 := lowByte steer
  let b6 := highByte steer
  let b7 := toUint8 ((b1 ^^^ b2 ^^^ b3 ^^^ b4 ^^^ b5 ^^^ b6 : Nat) : Int)
  [b0, b1, b2, b3, b4, b5, b6, b7]

/-- Receiver side reading of a byte pair: little-endian reassembly
`lo + 256 * hi`, reinterpreted as a signed 16-bit value. -/
def decodeInt16 (lo hi : Nat) : Int :=
  let u := lo + 256 * hi
  if u < 32768 then (u : Int) else (u : Int) - 65536

end RemoteControl

/-! ## camera_control/camera_stream.cpp -/

namespace CameraStream

/-- The observable content of a `cv::Mat`: its dimensions and its pixel bytes. -/
structure Mat where
  rows : Nat
  cols : Nat
  channels : Nat
  data : Bytes
deriving DecidableEq, Repr

/-- The default-constructed `cv::Mat` (no pixels). -/
def Mat.none : Mat := ⟨0, 0, 1, []⟩

/-- The test `cv::Mat::empty()`: no data pointer, or no elements. -/
def Mat.empty (m : Mat) : Bool := m.data.isEmpty || m.rows * m.cols == 0

/-- The fields of `struct SharedFrame` that hold data (lines 19-25); the mutex
and the condition variable are modelled by the way the operations below are
sequenced. -/
structure SharedFrame where
  latest : Mat
  has_new : Bool
  stop : Bool
deriving DecidableEq, Repr

/-- The state of `SharedFrame shared;` at line 165. -/
def SharedFrame.init : SharedFrame := ⟨Mat.none, false, false⟩

/-- The store of the capture loop under the lock (lines 176-180):
`frame.copyTo(shared.latest); shared.has_new = true;`. The loop reaches it only
with a frame that passed the `frame.empty()` guard of line 171. -/
def publish (shared : SharedFrame) (frame : Mat) : SharedFrame :=
  { shared with latest := frame, has_new := true }

/-- The predicate handed to `wait_for` (line 60). `wait_for` returns when it is
true or when 500 ms have passed; its return value, the value of the predicate
at that moment, is discarded by `handle_client`. -/
def waitPredicate (shared : SharedFrame) : Bool := shared.stop || shared.has_new

/-- Lines 62-64 of `handle_client`, executed under the lock once `wait_for`
has returned: `none` when the stop flag is set (`break`), otherwise the local
`frame` (a copy of `latest` when that is not empty, else the default `cv::Mat`)
and the shared state with `has_new` cleared. -/
def readSlot (shared : SharedFrame) : Option (Mat × SharedFrame) :=
  if shared.stop then none
  else
    let frame := if !shared.latest.empty then shared.latest else Mat.none
    some (frame, { shared with has_new := false })

/-- What a thread does to its sockets and to the thread table, in program order.
`send` carries the buffer handed to `send(2)` and the value the call returned. -/
inductive Action where
  | send (fd : Int) (data : Bytes) (ret : Int)
  | close (fd : Int)
  | spawn_handle_client (client_fd : Int) (jpeg_quality : Int)
deriving DecidableEq, Repr

/-- The response header of `handle_client` (lines 43-48). -/
def responseHeader : Bytes :=
  ascii ("HTTP/1.0 200 OK\r\n" ++ "Connection: close\r\n" ++ "Cache-Control: no-cache\r\n"
    ++ "Pragma: no-cache\r\n"
    ++ "Content-Type: multipart/x-mixed-replace; boundary=frame\r\n\r\n")

/-- The text `operator<<` writes for a `size_t`: its decimal digits. -/
def decimal (n : Nat) : Bytes := (Nat.toDigits 10 n).map Char.toNat

/-- The fixed text in front of the length in `partHeader` (lines 77-79). -/
def partHeaderText : Bytes :=
  ascii "--frame\r\n" ++ ascii "Content-Type: image/jpeg\r\n" ++ ascii "Content-Length: "

/-- The string `partHeader` built at lines 76-80 for a payload of `size` bytes. -/
def partHeader (size : Nat) : Bytes :=
  partHeaderText ++ decimal size ++ ascii "\r\n\r\n"

/-- What one pass through the `while` loop of `handle_client` meets:
the stop flag loaded by the loop condition (line 54), the shared state found
when `wait_for` returns with the lock held (the stop flag in it is the load of
line 62), and the return values of the three `send` calls. -/
structure IterEnv where
  stopAtTest : Bool
  woke : SharedFrame
  ret1 : Int
  ret2 : Int
  ret3 : Int

/-- Outcome of one pass: the socket calls made, the shared state when the lock
is released, and whether the loop is left. -/
structure IterResult where
  actions : List Action
  shared : SharedFrame
  leave : Bool
deriving DecidableEq, Repr

/-- One pass through the loop body of `handle_client` (lines 54-88).
`imencode frame quality` stands for `cv::imencode(".jpg", frame, jpgBuf, params)`:
`some jpgBuf` when it returns true, `none` when it returns false. -/
def handle_client_iter (imencode : Mat → Int → Option Bytes) (client_fd : Int)
    (jpeg_quality : Int) (e : IterEnv) : IterResult :=
  if e.stopAtTest then ⟨[], e.woke, true⟩
  else
    match readSlot e.woke with
    | none => ⟨[], e.woke, true⟩
    | some (frame, shared) =>
      if frame.empty then ⟨[], shared, false⟩
      else
        match imencode frame jpeg_quality with
        | none => ⟨[], shared, false⟩
        | some jpgBuf =>
          let s1 := Action.send client_fd (partHeader jpgBuf.length) e.ret1
          let s2 := Action.send client_fd jpgBuf e.ret2
          let s3 := Action.send client_fd (ascii "\r\n") e.ret3
          if e.ret1 ≤ 0 then ⟨[s1], shared, true⟩
          else if e.ret2 ≤ 0 then ⟨[s1, s2], shared, true⟩
          else if e.ret3 ≤ 0 then ⟨[s1, s2, s3], shared, true⟩
          else ⟨[s1, s2, s3], shared, false⟩

/-- The `while` loop of `handle_client` run against a finite trace of
environments, one per pass. The boolean tells whether the loop was left; it is
false when the trace ends with the worker still looping. -/
def handle_client_loop (imencode : Mat → Int → Option Bytes) (client_fd : Int)
    (jpeg_quality : Int) : List IterEnv → List Action × Bool
  | [] => ([], false)
  | e :: es =>
    let r := handle_client_iter imencode client_fd jpeg_quality e
    if r.leave then (r.actions, true)
    else
      let rest := handle_client_loop imencode client_fd jpeg_quality es
      (r.actions ++ rest.1, rest.2)

/-- The function `handle_client` (lines 41-91): the response header is sent
(its return value `ret0` is not looked at), the loop runs, and once the loop is
left the socket is closed. The boolean tells whether the function returned. -/
def handle_client (imencode : Mat → Int → Option Bytes) (client_fd : Int)
    (jpeg_quality : Int) (ret0 : Int) (envs : List IterEnv) : List Action × Bool :=
  let body := handle_client_loop imencode client_fd jpeg_quality envs
  (Action.send client_fd responseHeader ret0 :: body.1
      ++ (if body.2 then [Action.close client_fd] else []), body.2)

/-- Search of `pat` in `s` from position `pos` on: the first position at which
`pat` occurs. -/
def findFrom (pat : Bytes) : Bytes → Nat → Option Nat
  | [], pos => if pat.isPrefixOf [] then some pos else Option.none
  | c :: cs, pos =>
    if pat.isPrefixOf (c :: cs) then some pos else findFrom pat cs (pos + 1)

/-- The call `s.find(pat)` of `std::string`; `Option.none` is `npos`. -/
def find (s pat : Bytes) : Option Nat := findFrom pat s 0

/-- The string `std::string req(buf)` holds: the bytes before the first NUL. -/
def cString (buf : Bytes) : Bytes := buf.takeWhile (fun b => b != 0)

/-- The static page of `http_server` (lines 138-143). -/
def page : Bytes :=
  ascii ("HTTP/1.0 200 OK\r\nContent-Type: text/html\r\n\r\n" ++ "<html><body>"
    ++ "<h3>MJPEG stream</h3>" ++ "<img src=\"/stream\" />" ++ "</body></html>")

/-- The stream path token tested at line 135. -/
def streamToken : Bytes := ascii "GET /stream"

/-- What one pass through the accept loop of `http_server` meets: the stop flag
loaded by the loop condition, the return value of `accept`, whether `errno` is
`EINTR` when it failed, the return value `n` of `recv`, the bytes `recv` put
into `buf`, and the return value of the `send` of the static page. -/
structure AcceptEnv where
  stopAtTest : Bool
  client_fd : Int
  eintr : Bool
  n : Int
  buf : Bytes
  sendRet : Int

/-- The string `req` of line 133: `buf[n] = 0` cuts the buffer after the `n`
bytes read, and the `std::string` constructor stops at the first NUL. -/
def request (e : AcceptEnv) : Bytes := cString (e.buf.take e.n.toNat)

/-- One pass through the accept loop of `http_server` (lines 119-147): the
actions and whether the loop is left. -/
def http_server_iter (e : AcceptEnv) : List Action × Bool :=
  if e.stopAtTest then ([], true)
  else if e.client_fd < 0 then
    if e.eintr then ([], false) else ([], true)
  else if e.n ≤ 0 then ([Action.close e.client_fd], false)
  else if find (request e) streamToken == some 0 then
    ([Action.spawn_handle_client e.client_fd 80], false)
  else
    ([Action.send e.client_fd page e.sendRet, Action.close e.client_fd], false)

/-- The accept loop of `http_server` against a finite trace of environments. -/
def http_server_loop : List AcceptEnv → List Action × Bool
  | [] => ([], false)
  | e :: es =>
    let r := http_server_iter e
    if r.2 then (r.1, true)
    else
      let rest := http_server_loop es
      (r.1 ++ rest.1, rest.2)

/-- The function `http_server` (lines 94-150), given the return values of
`socket`, `bind` and `listen`. -/
def http_server (server_fd bindRet listenRet : Int) (envs : List AcceptEnv) :
    List Action × Bool :=
  if server_fd < 0 then ([], true)
  else if bindRet < 0 then ([Action.close server_fd], true)
  else if listenRet < 0 then ([Action.close server_fd], true)
  else
    let r := http_server_loop envs
    (r.1 ++ (if r.2 then [Action.close server_fd] else []), r.2)

/-- Number of `handle_client` threads started in a log. The threads are detached
(line 136) and nothing in the program counts or joins them. -/
def spawned (log : List Action) : Nat :=
  (log.filter (fun a => match a with
    | Action.spawn_handle_client _ _ => true
    | _ => false)).length

/-- Number of workers started in a log whose `handle_client` has not returned,
given the passes each of them has gone through so far (by client socket). -/
def running (imencode : Mat → Int → Option Bytes) (traces : Int → List IterEnv) :
    List Action → Nat
  | [] => 0
  | Action.spawn_handle_client fd q :: rest =>
    (if (handle_client_loop imencode fd q (traces fd)).2 then 0 else 1)
      + running imencode traces rest
  | _ :: rest => running imencode traces rest

/-- What the accept loop meets when a client on socket `fd` asks for the stream. -/
def streamRequest (fd : Int) : AcceptEnv :=
  ⟨false, fd, false, 22, ascii "GET /stream HTTP/1.1\r\n", 0⟩

/-- The first line of a request: the bytes before the first CR or LF. -/
def firstLine (req : Bytes) : Bytes := req.takeWhile (fun b => b != 13 && b != 10)

/-- Reading of a decimal number, digit by digit. -/
def parseDecimal (digits : Bytes) : Nat := digits.foldl (fun acc c => 10 * acc + (c - 48)) 0

/-- The length a client reads from a part header: the decimal number between
the fixed text and the next CR. -/
def declaredLength (hdr : Bytes) : Nat :=
  parseDecimal ((hdr.drop partHeaderText.length).takeWhile (fun b => b != 13))

/-- The bytes that reached the socket, call after call: of each buffer handed
to `send`, the first `ret` bytes, `ret` being the count the call returned (none
when the call failed). -/
def writtenBytes : List Action → Bytes
  | [] => []
  | Action.send _ data ret :: rest => data.take ret.toNat ++ writtenBytes rest
  | _ :: rest => writtenBytes rest

/-- A 2x2 black BGR frame. -/
def blackFrame : Mat := ⟨2, 2, 3, List.replicate 12 0⟩

/-- A 2x2 white BGR frame. -/
def whiteFrame : Mat := ⟨2, 2, 3, List.replicate 12 255⟩

/-- An encoder for examples: the pixel bytes between the JPEG start and end
markers; it never fails. -/
def sampleEncoder : Mat → Int → Option Bytes :=
  fun m _ => some (0xFF :: 0xD8 :: m.data ++ [0xFF, 0xD9])

/-! ### Threads around the condition variable -/

/-- Where a `handle_client` thread stands with respect to `shared->cv`. -/
inductive WorkerAt where
  /-- Suspended inside `wait_for` (line 59), mutex released, not notified. -/
  | blocked
  /-- Taken off the condition variable by a notification; it has yet to take the
  mutex and test the predicate again. -/
  | unblocked
  /-- Past line 64 with its own copy of the frame. -/
  | holds (frame : Mat)
  /-- Out of the loop through the `break` of line 62. -/
  | left
deriving DecidableEq, Repr

/-- The shared slot together with the worker threads attached to it. -/
structure Sys where
  shared : SharedFrame
  workers : List WorkerAt
deriving DecidableEq, Repr

/-- The effect of `notify_one` on the threads: the `pick`-th of the blocked
threads, counted from 0, is unblocked; the others stay as they are. -/
def unblockNth : Nat → List WorkerAt → List WorkerAt
  | _, [] => []
  | 0, WorkerAt.blocked :: ws => WorkerAt.unblocked :: ws
  | k + 1, WorkerAt.blocked :: ws => WorkerAt.blocked :: unblockNth k ws
  | k, w :: ws => w :: unblockNth k ws

/-- Number of threads suspended on the condition variable. -/
def blockedCount (ws : List WorkerAt) : Nat := ws.count WorkerAt.blocked

/-- The call `shared.cv.notify_one()` of line 181: when threads are blocked, one
of them, chosen by the scheduler (`pick`), is unblocked. -/
def notify_one (pick : Nat) (ws : List WorkerAt) : List WorkerAt :=
  if blockedCount ws = 0 then ws else unblockNth (pick % blockedCount ws) ws

/-- A worker that holds the mutex after `wait_for` has returned runs lines 62-64. -/
def passWait (shared : SharedFrame) : SharedFrame × WorkerAt :=
  match readSlot shared with
  | Option.none => (shared, WorkerAt.left)
  | some (frame, shared1) => (shared1, WorkerAt.holds frame)

/-- The steps of the threads that touch the slot and the condition variable. -/
inductive Event where
  /-- The capture thread runs lines 176-180 with this frame. -/
  | store (frame : Mat)
  /-- The capture thread runs line 181. -/
  | notify (pick : Nat)
  /-- An unblocked worker takes the mutex and tests the predicate of line 60:
  when it holds the wait ends, otherwise the worker is suspended again. -/
  | resume (i : Nat)
  /-- A blocked worker wakes up without a notification (spurious wake-up): it
  takes the mutex and tests the predicate like a notified one. -/
  | spurious (i : Nat)
  /-- The 500 ms of a blocked worker run out: it takes the mutex and `wait_for`
  returns whatever the predicate says. -/
  | timeout (i : Nat)
deriving DecidableEq, Repr

/-- One step of the system. -/
def step (sys : Sys) : Event → Sys
  | Event.store frame => { sys with shared := publish sys.shared frame }
  | Event.notify pick => { sys with workers := notify_one pick sys.workers }
  | Event.resume i =>
    match sys.workers.get? i with
    | some WorkerAt.unblocked =>
      if waitPredicate sys.shared then
        let r := passWait sys.shared
        { shared := r.1, workers := sys.workers.set i r.2 }
      else { sys with workers := sys.workers.set i WorkerAt.blocked }
    | _ => sys
  | Event.spurious i =>
    match sys.workers.get? i with
    | some WorkerAt.blocked =>
      if waitPredicate sys.shared then
        let r := passWait sys.shared
        { shared := r.1, workers := sys.workers.set i r.2 }
      else sys
    | _ => sys
  | Event.timeout i =>
    match sys.workers.get? i with
    | some WorkerAt.blocked =>
      let r := passWait sys.shared
      { shared := r.1, workers := sys.workers.set i r.2 }
    | _ => sys

/-- A schedule of steps run from a state. -/
def run (sys : Sys) (evs : List Event) : Sys := evs.foldl step sys

/-- The steps by which a worker can leave `wait_for` before its time is up:
notifications and wake-ups. -/
def Event.isWake : Event → Bool
  | Event.notify _ => true
  | Event.resume _ => true
  | Event.spurious _ => true
  | _ => false

/-- Whether a worker has got a frame out of its wait. -/
def WorkerAt.isServed : WorkerAt → Bool
  | WorkerAt.holds _ => true
  | _ => false

/-- Number of workers that have got a frame out of their wait. -/
def servedCount (ws : List WorkerAt) : Nat := ws.countP WorkerAt.isServed

/-- The property kept by every step that is not a store or a timeout: the stop
flag is clear, at most one worker has been served, and none while `has_new` is
still set. -/
def OneServed (sys : Sys) : Prop :=
  sys.shared.stop = false ∧ servedCount sys.workers ≤ 1 ∧
    (sys.shared.has_new = true → servedCount sys.workers = 0)

end CameraStream

/-! ## Theorems -/

namespace RemoteControl

set_option maxRecDepth 100000 in
theorem xor_255_eq_sub : ∀ k, k < 256 → 255 ^^^ k = 255 - k := by decide

theorem ldiff_255 (m : Nat) : Nat.ldiff 255 m = 255 - m % 256 := by
  have h1 : Nat.ldiff 255 m = 255 ^^^ (m % 256) := by
    apply Nat.eq_of_testBit_eq
    intro i
    rw [Nat.testBit_ldiff, Nat.testBit_xor, ← Nat.and_pow_two_sub_one_eq_mod m 8,
      Nat.testBit_and]
    have h255 : (255 : Nat) = 2 ^ 8 - 1 := by norm_num
    rw [h255, Nat.testBit_two_pow_sub_one]
    cases m.testBit i <;> cases decide (i < 8) <;> rfl
  rw [h1]
  exact xor_255_eq_sub _ (Nat.mod_lt _ (by norm_num))

/-- On twos-complement integers `x & 0xFF` is the residue of `x` modulo 256. -/
theorem land_255_eq_emod (x : Int) : Int.land x 255 = x % 256 := by
  cases x with
  | ofNat n =>
    show ((n &&& 255 : Nat) : Int) = _
    have h := Nat.and_pow_two_sub_one_eq_mod n 8
    norm_num at h
    rw [h]; simp only [Int.ofNat_eq_coe]; omega
  | negSucc m =>
    show ((Nat.ldiff 255 m : Nat) : Int) = _
    rw [ldiff_255, Int.negSucc_emod _ (by norm_num)]
    omega

theorem lowByte_eq (v : Int) : lowByte v = (v % 256).toNat := by
  unfold lowByte toUint8
  rw [show ((0xFF : Int)) = 255 from rfl, land_255_eq_emod]
  congr 1
  omega

theorem highByte_eq (v : Int) : highByte v = ((v / 256) % 256).toNat := by
  unfold highByte toUint8
  rw [show ((0xFF : Int)) = 255 from rfl, land_255_eq_emod, Int.shiftRight_eq_div_pow]
  congr 1
  norm_num

theorem lowByte_lt (v : Int) : lowByte v < 256 := by
  rw [lowByte_eq]; omega

theorem highByte_lt (v : Int) : highByte v < 256 := by
  rw [highByte_eq]; omega

theorem decode_bytes (v : Int) (h : isInt16 v) :
    decodeInt16 (lowByte v) (highByte v) = v := by
  unfold isInt16 at h
  unfold decodeInt16
  rw [lowByte_eq, highByte_eq]
  simp only
  split_ifs with hu <;> omega

theorem xor6_lt (a b c d e f : Nat) (ha : a < 256) (hb : b < 256) (hc : c < 256)
    (hd : d < 256) (he : e < 256) (hf : f < 256) :
    a ^^^ b ^^^ c ^^^ d ^^^ e ^^^ f < 256 := by
  have h8 : (256 : Nat) = 2 ^ 8 := by norm_num
  rw [h8] at *
  exact Nat.xor_lt_two_pow (Nat.xor_lt_two_pow (Nat.xor_lt_two_pow
    (Nat.xor_lt_two_pow (Nat.xor_lt_two_pow ha hb) hc) hd) he) hf

/-- C10: for every triple of signed 16-bit values, `uart_send_binary` builds
exactly eight bytes: the header 0xAA, then the three values as little-endian
byte pairs that decode back (low + 256 * high, read as signed 16-bit) to
`left`, `right` and `steer`, then the XOR of bytes 1 to 6; hence the XOR of
bytes 1 to 7 is 0. -/
theorem uart_send_binary_packet (left right steer : Int)
    (hl : isInt16 left) (hr : isInt16 right) (hs : isInt16 steer) :
    ∃ b1 b2 b3 b4 b5 b6 b7 : Nat,
      uart_send_binary left right steer = [0xAA, b1, b2, b3, b4, b5, b6, b7] ∧
      (uart_send_binary left right steer).length = 8 ∧
      (∀ b ∈ uart_send_binary left right steer, b < 256) ∧
      decodeInt16 b1 b2 = left ∧
      decodeInt16 b3 b4 = right ∧
      decodeInt16 b5 b6 = steer ∧
      b7 = b1 ^^^ b2 ^^^ b3 ^^^ b4 ^^^ b5 ^^^ b6 ∧
      b1 ^^^ b2 ^^^ b3 ^^^ b4 ^^^ b5 ^^^ b6 ^^^ b7 = 0 := by
  have hx := xor6_lt _ _ _ _ _ _ (lowByte_lt left) (highByte_lt left) (lowByte_lt right)
    (highByte_lt right) (lowByte_lt steer) (highByte_lt steer)
  have h7 : toUint8 ((lowByte left ^^^ highByte left ^^^ lowByte right ^^^ highByte right
      ^^^ lowByte steer ^^^ highByte steer : Nat) : Int)
      = lowByte left ^^^ highByte left ^^^ lowByte right ^^^ highByte right
      ^^^ lowByte steer ^^^ highByte steer := by
    unfold toUint8; omega
  refine ⟨lowByte left, highByte left, lowByte right, highByte right, lowByte steer,
    highByte steer, _, ?_, rfl, ?_, decode_bytes left hl, decode_bytes right hr,
    decode_bytes steer hs, h7, ?_⟩
  · rfl
  · intro b hb
    simp only [uart_send_binary, List.mem_cons, List.mem_singleton, List.not_mem_nil,
      or_false] at hb
    rcases hb with h | h | h | h | h | h | h | h
    · rw [h]; decide
    · rw [h]; exact lowByte_lt _
    · rw [h]; exact highByte_lt _
    · rw [h]; exact lowByte_lt _
    · rw [h]; exact highByte_lt _
    · rw [h]; exact lowByte_lt _
    · rw [h]; exact highByte_lt _
    · rw [h, h7]; exact hx
  · rw [h7]; exact Nat.xor_self _

/-- C10 at the left-turn command of `handle_key`: `send_command(fd, 220, 255, -30)`. -/
theorem uart_send_binary_packet_witness :
    isInt16 220 ∧ isInt16 255 ∧ isInt16 (-30) ∧
    ∃ b1 b2 b3 b4 b5 b6 b7 : Nat,
      uart_send_binary 220 255 (-30) = [0xAA, b1, b2, b3, b4, b5, b6, b7] ∧
      (uart_send_binary 220 255 (-30)).length = 8 ∧
      (∀ b ∈ uart_send_binary 220 255 (-30), b < 256) ∧
      decodeInt16 b1 b2 = 220 ∧
      decodeInt16 b3 b4 = 255 ∧
      decodeInt16 b5 b6 = -30 ∧
      b7 = b1 ^^^ b2 ^^^ b3 ^^^ b4 ^^^ b5 ^^^ b6 ∧
      b1 ^^^ b2 ^^^ b3 ^^^ b4 ^^^ b5 ^^^ b6 ^^^ b7 = 0 :=
  ⟨by decide, by decide, by decide,
    uart_send_binary_packet 220 255 (-30) (by decide) (by decide) (by decide)⟩

end RemoteControl

namespace CameraStream

theorem digitChar_toNat (d : Nat) (h : d < 10) : (Nat.digitChar d).toNat = 48 + d := by
  interval_cases d <;> rfl

theorem toDigitsCore_spec (fuel : Nat) : ∀ (n : Nat) (ds : List Char), n < fuel →
    ∃ D : List Char, Nat.toDigitsCore 10 fuel n ds = D ++ ds ∧
      parseDecimal (D.map Char.toNat) = n ∧ ∀ c ∈ D.map Char.toNat, 48 ≤ c ∧ c ≤ 57 := by
  induction fuel with
  | zero => intro n ds h; omega
  | succ fuel ih =>
    intro n ds h
    have hd : (Nat.digitChar (n % 10)).toNat = 48 + n % 10 :=
      digitChar_toNat _ (Nat.mod_lt _ (by norm_num))
    unfold Nat.toDigitsCore
    simp only
    split_ifs with h0
    · refine ⟨[Nat.digitChar (n % 10)], rfl, ?_, ?_⟩
      · simp only [parseDecimal, List.map_cons, List.map_nil, List.foldl_cons, List.foldl_nil, hd]
        omega
      · intro c hc
        simp only [List.map_cons, List.map_nil, List.mem_singleton] at hc
        omega
    · obtain ⟨D, hD, hp, hdig⟩ := ih (n / 10) (Nat.digitChar (n % 10) :: ds) (by omega)
      refine ⟨D ++ [Nat.digitChar (n % 10)], ?_, ?_, ?_⟩
      · rw [hD]; simp
      · unfold parseDecimal at hp ⊢
        rw [List.map_append, List.foldl_append, hp]
        simp only [List.map_cons, List.map_nil, List.foldl_cons, List.foldl_nil, hd]
        omega
      · intro c hc
        rw [List.map_append, List.mem_append] at hc
        rcases hc with hc | hc
        · exact hdig c hc
        · simp only [List.map_cons, List.map_nil, List.mem_singleton] at hc
          omega

theorem parseDecimal_decimal (n : Nat) : parseDecimal (decimal n) = n := by
  obtain ⟨D, hD, hp, _⟩ := toDigitsCore_spec (n + 1) n [] (by omega)
  unfold decimal Nat.toDigits
  rw [hD, List.append_nil]
  exact hp

theorem decimal_digits (n : Nat) : ∀ c ∈ decimal n, 48 ≤ c ∧ c ≤ 57 := by
  obtain ⟨D, hD, _, hdig⟩ := toDigitsCore_spec (n + 1) n [] (by omega)
  unfold decimal Nat.toDigits
  rw [hD, List.append_nil]
  exact hdig

theorem takeWhile_initial_segment_iff (p : Nat → Bool) (t : Bytes) :
    ∀ l : Bytes, (∀ x ∈ t, p x = true) → (t <+: l.takeWhile p ↔ t <+: l) := by
  induction t with
  | nil => intro l _; simp
  | cons a t ih =>
    intro l ht
    cases l with
    | nil => simp
    | cons b l =>
      have hpa : p a = true := ht a (List.mem_cons_self _ _)
      have ht2 : ∀ x ∈ t, p x = true := fun x hx => ht x (List.mem_cons_of_mem _ hx)
      by_cases hb : p b = true
      · rw [List.takeWhile_cons_of_pos hb, List.cons_prefix_cons, List.cons_prefix_cons,
          ih l ht2]
      · rw [List.takeWhile_cons_of_neg hb, List.cons_prefix_cons]
        constructor
        · intro h; simp at h
        · rintro ⟨hab, _⟩
          rw [hab] at hpa
          exact absurd hpa hb

theorem findFrom_ge (pat : Bytes) : ∀ (s : Bytes) (pos k : Nat),
    findFrom pat s pos = some k → pos ≤ k := by
  intro s
  induction s with
  | nil =>
    intro pos k h
    unfold findFrom at h
    split_ifs at h
    simp only [Option.some.injEq] at h
    omega
  | cons c cs ih =>
    intro pos k h
    unfold findFrom at h
    split_ifs at h
    · simp only [Option.some.injEq] at h
      omega
    · have := ih (pos + 1) k h
      omega

theorem find_eq_zero_iff (s pat : Bytes) : (find s pat == some 0) = true ↔ pat <+: s := by
  rw [← List.isPrefixOf_iff_prefix]
  unfold find
  cases s with
  | nil =>
    unfold findFrom
    split_ifs with h <;> simp [h]
  | cons c cs =>
    unfold findFrom
    split_ifs with h
    · simp [h]
    · simp only [h, Bool.false_eq_true, iff_false]
      intro hc
      have h1 : findFrom pat cs (0 + 1) = some 0 := by simpa using hc
      have := findFrom_ge pat cs _ _ h1
      omega

theorem publish_stop (s : SharedFrame) (f : Mat) : (publish s f).stop = s.stop := rfl

theorem foldl_publish_stop (ps : List Mat) : ∀ s : SharedFrame,
    (ps.foldl publish s).stop = s.stop := by
  induction ps with
  | nil => intro s; rfl
  | cons p ps ih => intro s; rw [List.foldl_cons, ih, publish_stop]

theorem foldl_publish_eq (s : SharedFrame) (ps : List Mat) (hne : ps ≠ []) :
    ps.foldl publish s = ⟨ps.getLast hne, true, s.stop⟩ := by
  have hsplit := List.dropLast_append_getLast hne
  have h : (ps.dropLast ++ [ps.getLast hne]).foldl publish s
      = ⟨ps.getLast hne, true, s.stop⟩ := by
    rw [List.foldl_append, List.foldl_cons, List.foldl_nil]
    show (⟨ps.getLast hne, true, (ps.dropLast.foldl publish s).stop⟩ : SharedFrame) = _
    rw [foldl_publish_stop]
  rw [hsplit] at h
  exact h

/-- C1: after any non-empty sequence of stores P1..Pn of the capture loop into
the shared slot, with no worker read in between and the stop flag clear, the
wait predicate holds and the copy a worker takes at lines 62-64 is exactly Pn;
it is none of the earlier frames that differ from Pn. -/
theorem latest_wins (s : SharedFrame) (ps : List Mat) (hne : ps ≠ [])
    (hstop : s.stop = false) (hlast : (ps.getLast hne).empty = false) :
    waitPredicate (ps.foldl publish s) = true ∧
    readSlot (ps.foldl publish s)
      = some (ps.getLast hne, ⟨ps.getLast hne, false, false⟩) ∧
    ∀ p ∈ ps.dropLast, p ≠ ps.getLast hne →
      ∀ r, readSlot (ps.foldl publish s) = some r → r.1 ≠ p := by
  have hread : readSlot (ps.foldl publish s)
      = some (ps.getLast hne, ⟨ps.getLast hne, false, false⟩) := by
    rw [foldl_publish_eq s ps hne]
    simp [readSlot, hstop, hlast]
  refine ⟨?_, hread, ?_⟩
  · rw [foldl_publish_eq s ps hne]
    simp [waitPredicate]
  · intro p _ hp r hr
    rw [hread] at hr
    simp only [Option.some.injEq] at hr
    rw [← hr]
    exact fun h => hp h.symm

/-- C1 on the end-to-end example: a 2x2 black frame, then a 2x2 white frame,
then the read. -/
theorem latest_wins_witness :
    [blackFrame, whiteFrame] ≠ [] ∧ SharedFrame.init.stop = false ∧
    whiteFrame.empty = false ∧
    waitPredicate ([blackFrame, whiteFrame].foldl publish SharedFrame.init) = true ∧
    readSlot ([blackFrame, whiteFrame].foldl publish SharedFrame.init)
      = some (whiteFrame, ⟨whiteFrame, false, false⟩) ∧
    ∀ p ∈ [blackFrame, whiteFrame].dropLast, p ≠ whiteFrame →
      ∀ r, readSlot ([blackFrame, whiteFrame].foldl publish SharedFrame.init) = some r →
        r.1 ≠ p :=
  ⟨by decide, rfl, by decide,
    latest_wins SharedFrame.init [blackFrame, whiteFrame] (by decide) rfl (by decide)⟩

theorem takeWhile_append_stop (p : Nat → Bool) (x : Nat) (r : Bytes) (hx : p x = false) :
    ∀ D : Bytes, (∀ c ∈ D, p c = true) → (D ++ x :: r).takeWhile p = D := by
  intro D
  induction D with
  | nil => intro _; simp [List.takeWhile, hx]
  | cons d D ih =>
    intro h
    have hd : p d = true := h d (List.mem_cons_self _ _)
    rw [List.cons_append, List.takeWhile_cons_of_pos hd,
      ih (fun c hc => h c (List.mem_cons_of_mem _ hc))]

theorem declaredLength_partHeader (n : Nat) : declaredLength (partHeader n) = n := by
  unfold declaredLength partHeader
  rw [List.append_assoc, List.drop_left]
  have hcr : ascii "\r\n\r\n" = 13 :: [10, 13, 10] := by decide
  rw [hcr, takeWhile_append_stop _ 13 _ (by decide) (decimal n)]
  · exact parseDecimal_decimal n
  · intro c hc
    have := decimal_digits n c hc
    simp only [bne_iff_ne, ne_eq]
    omega

/-- When a pass of `handle_client` has read a non-empty frame, the encoder has
produced a payload and each of the three sends has written its whole buffer,
the bytes written are exactly the fixed header text, the decimal digits of the
payload length, "\r\n\r\n", the payload and "\r\n". -/
theorem part_written_when_sends_complete (imencode : Mat → Int → Option Bytes)
    (client_fd q : Int) (e : IterEnv) (frame : Mat) (sh : SharedFrame) (jpg : Bytes)
    (h0 : e.stopAtTest = false) (hread : readSlot e.woke = some (frame, sh))
    (hne : frame.empty = false) (henc : imencode frame q = some jpg)
    (h1 : e.ret1 = ((partHeader jpg.length).length : Int))
    (h2 : e.ret2 = (jpg.length : Int)) (hjpg : 0 < jpg.length) (h3 : e.ret3 = 2) :
    (handle_client_iter imencode client_fd q e).actions
      = [Action.send client_fd (partHeader jpg.length) e.ret1,
         Action.send client_fd jpg e.ret2,
         Action.send client_fd (ascii "\r\n") e.ret3] ∧
    writtenBytes (handle_client_iter imencode client_fd q e).actions
      = ascii "--frame\r\nContent-Type: image/jpeg\r\nContent-Length: "
          ++ decimal jpg.length ++ ascii "\r\n\r\n" ++ jpg ++ ascii "\r\n" ∧
    declaredLength (partHeader jpg.length) = jpg.length := by
  have hlen : 0 < (partHeader jpg.length).length := by
    unfold partHeader
    rw [List.length_append, List.length_append]
    have : 0 < partHeaderText.length := by decide
    omega
  have hact : (handle_client_iter imencode client_fd q e).actions
      = [Action.send client_fd (partHeader jpg.length) e.ret1,
         Action.send client_fd jpg e.ret2,
         Action.send client_fd (ascii "\r\n") e.ret3] := by
    unfold handle_client_iter
    simp only [h0, hread, hne, henc, Bool.false_eq_true, if_false]
    rw [if_neg (by omega), if_neg (by omega), if_neg (by omega)]
  refine ⟨hact, ?_, declaredLength_partHeader _⟩
  rw [hact]
  have htext : partHeaderText
      = ascii "--frame\r\nContent-Type: image/jpeg\r\nContent-Length: " := by decide
  have hcrlf : (ascii "\r\n").take (2 : Int).toNat = ascii "\r\n" := by decide
  simp only [writtenBytes, h1, h2, h3, Int.toNat_ofNat, List.take_length, hcrlf,
    List.append_nil]
  simp only [partHeader, htext, List.append_assoc]

/-- C2 on the code: the white 2x2 frame is encoded to 16 bytes and the part
header declares `Content-Length: 16`; the `send` of the payload returns 5, a
short write. Line 83 tests only for a non-positive return, so the pass goes on
to send CRLF and stays in the loop: the bytes written for the part are the
header, 5 payload bytes and CRLF (64 bytes), not the 75 bytes of a whole part,
and the declared length is not the number of payload bytes that follow. -/
theorem short_write_breaks_content_length :
    handle_client_iter sampleEncoder 5 80 ⟨false, ⟨whiteFrame, true, false⟩, 57, 5, 2⟩
      = ⟨[Action.send 5 (partHeader 16) 57,
          Action.send 5 (0xFF :: 0xD8 :: whiteFrame.data ++ [0xFF, 0xD9]) 5,
          Action.send 5 (ascii "\r\n") 2], ⟨whiteFrame, false, false⟩, false⟩ ∧
    declaredLength (partHeader 16) = 16 ∧
    writtenBytes (handle_client_iter sampleEncoder 5 80
        ⟨false, ⟨whiteFrame, true, false⟩, 57, 5, 2⟩).actions
      = partHeader 16 ++ [0xFF, 0xD8, 255, 255, 255] ++ ascii "\r\n" ∧
    writtenBytes (handle_client_iter sampleEncoder 5 80
        ⟨false, ⟨whiteFrame, true, false⟩, 57, 5, 2⟩).actions
      ≠ partHeader 16 ++ (0xFF :: 0xD8 :: whiteFrame.data ++ [0xFF, 0xD9]) ++ ascii "\r\n" ∧
    (writtenBytes (handle_client_iter sampleEncoder 5 80
        ⟨false, ⟨whiteFrame, true, false⟩, 57, 5, 2⟩).actions).length = 64 ∧
    (partHeader 16 ++ (0xFF :: 0xD8 :: whiteFrame.data ++ [0xFF, 0xD9])
        ++ ascii "\r\n").length = 75 := by
  decide

theorem streamToken_no_nul : ∀ x ∈ streamToken, (fun b : Nat => b != 0) x = true := by decide

theorem streamToken_no_eol :
    ∀ x ∈ streamToken, (fun b : Nat => b != 13 && b != 10) x = true := by decide

theorem stream_test_iff (e : AcceptEnv) :
    (find (request e) streamToken == some 0) = true
      ↔ streamToken <+: firstLine (e.buf.take e.n.toNat) := by
  rw [find_eq_zero_iff]
  unfold request cString firstLine
  rw [takeWhile_initial_segment_iff _ _ _ streamToken_no_nul,
    takeWhile_initial_segment_iff _ _ _ streamToken_no_eol]

/-- C3: for every request read from an accepted connection (`recv` returned
n > 0), when the first line of the bytes read begins with "GET /stream" the
pass of the accept loop spawns a `handle_client` worker and does nothing else
(no page is written, the socket is not closed); for every other first line,
the empty one included, it writes the static page, closes the connection and
spawns nothing. -/
theorem routing_correct (e : AcceptEnv) (hstop : e.stopAtTest = false)
    (hacc : 0 ≤ e.client_fd) (hn : 0 < e.n) :
    (streamToken <+: firstLine (e.buf.take e.n.toNat) →
      http_server_iter e = ([Action.spawn_handle_client e.client_fd 80], false)) ∧
    (¬ streamToken <+: firstLine (e.buf.take e.n.toNat) →
      http_server_iter e
        = ([Action.send e.client_fd page e.sendRet, Action.close e.client_fd], false)) ∧
    (firstLine (e.buf.take e.n.toNat) = [] →
      http_server_iter e
        = ([Action.send e.client_fd page e.sendRet, Action.close e.client_fd], false)) := by
  have hbase : http_server_iter e
      = if find (request e) streamToken == some 0 then
          ([Action.spawn_handle_client e.client_fd 80], false)
        else ([Action.send e.client_fd page e.sendRet, Action.close e.client_fd], false) := by
    unfold http_server_iter
    rw [if_neg (by simp [hstop]), if_neg (by omega), if_neg (by omega)]
  have hyes : streamToken <+: firstLine (e.buf.take e.n.toNat) →
      http_server_iter e = ([Action.spawn_handle_client e.client_fd 80], false) := by
    intro h
    rw [hbase, if_pos ((stream_test_iff e).mpr h)]
  have hno : ¬ streamToken <+: firstLine (e.buf.take e.n.toNat) →
      http_server_iter e
        = ([Action.send e.client_fd page e.sendRet, Action.close e.client_fd], false) := by
    intro h
    rw [hbase, if_neg (fun hc => h ((stream_test_iff e).mp hc))]
  refine ⟨hyes, hno, ?_⟩
  intro hempty
  apply hno
  rw [hempty]
  decide

/-- C3 on a stream request read from socket 4. -/
theorem routing_correct_witness :
    http_server_iter ⟨false, 4, false, 22, ascii "GET /stream HTTP/1.1\r\n", 1⟩
      = ([Action.spawn_handle_client 4 80], false) :=
  (routing_correct ⟨false, 4, false, 22, ascii "GET /stream HTTP/1.1\r\n", 1⟩
    rfl (by decide) (by decide)).1 (by decide)

theorem handle_client_loop_append (imencode : Mat → Int → Option Bytes) (fd q : Int)
    (es : List IterEnv) : ∀ pre : List IterEnv,
    (handle_client_loop imencode fd q pre).2 = false →
    handle_client_loop imencode fd q (pre ++ es)
      = ((handle_client_loop imencode fd q pre).1 ++ (handle_client_loop imencode fd q es).1,
         (handle_client_loop imencode fd q es).2) := by
  intro pre
  induction pre with
  | nil => intro _; simp [handle_client_loop]
  | cons p pre ih =>
    intro h
    show handle_client_loop imencode fd q (p :: (pre ++ es)) = _
    simp only [handle_client_loop] at h ⊢
    split_ifs at h ⊢ with hl
    simp only at h
    rw [ih h]
    simp

theorem handle_client_leaving (imencode : Mat → Int → Option Bytes) (fd q ret0 : Int)
    (pre post : List IterEnv) (e : IterEnv)
    (hpre : (handle_client_loop imencode fd q pre).2 = false)
    (hleave : (handle_client_iter imencode fd q e).leave = true) :
    handle_client imencode fd q ret0 (pre ++ e :: post)
      = (Action.send fd responseHeader ret0 :: (handle_client_loop imencode fd q pre).1
          ++ (handle_client_iter imencode fd q e).actions ++ [Action.close fd], true) := by
  unfold handle_client
  rw [handle_client_loop_append imencode fd q (e :: post) pre hpre]
  simp [handle_client_loop, hleave]

theorem handle_client_staying (imencode : Mat → Int → Option Bytes) (fd q : Int)
    (pre post : List IterEnv) (e : IterEnv)
    (hpre : (handle_client_loop imencode fd q pre).2 = false)
    (hstay : (handle_client_iter imencode fd q e).leave = false) :
    handle_client_loop imencode fd q (pre ++ e :: post)
      = ((handle_client_loop imencode fd q pre).1
          ++ (handle_client_iter imencode fd q e).actions
          ++ (handle_client_loop imencode fd q post).1,
         (handle_client_loop imencode fd q post).2) := by
  rw [handle_client_loop_append imencode fd q (e :: post) pre hpre]
  simp [handle_client_loop, hstay]

theorem readSlot_keeps (s sh : SharedFrame) (frame : Mat) (h : readSlot s = some (frame, sh)) :
    s.stop = false ∧ sh.latest = s.latest ∧ sh.stop = s.stop ∧ sh.has_new = false ∧
    frame = (if !s.latest.empty then s.latest else Mat.none) := by
  unfold readSlot at h
  by_cases hs : s.stop = true
  · rw [if_pos hs] at h
    exact absurd h (by simp)
  · rw [if_neg hs] at h
    simp only [Option.some.injEq, Prod.mk.injEq] at h
    obtain ⟨hf, hsh⟩ := h
    subst hsh
    simp only [Bool.not_eq_true] at hs
    exact ⟨hs, rfl, rfl, rfl, hf.symm⟩

/-- C6: in a pass of `handle_client` with a successfully encoded frame, if one
of the three sends (part header, payload, CRLF) returns a non-positive value,
the pass makes the send calls up to that one and no later one, the loop is
left, and the run of `handle_client` ends right there with the close of the
client socket, whatever would have come next; the frame and the stop flag of
the shared slot are as the pass found them. -/
theorem write_failure_terminal (imencode : Mat → Int → Option Bytes) (fd q ret0 : Int)
    (pre post : List IterEnv) (e : IterEnv) (frame : Mat) (sh : SharedFrame) (jpg : Bytes)
    (hpre : (handle_client_loop imencode fd q pre).2 = false)
    (h0 : e.stopAtTest = false) (hread : readSlot e.woke = some (frame, sh))
    (hne : frame.empty = false) (henc : imencode frame q = some jpg)
    (hfail : e.ret1 ≤ 0 ∨ e.ret2 ≤ 0 ∨ e.ret3 ≤ 0) :
    (handle_client_iter imencode fd q e).actions
      = [Action.send fd (partHeader jpg.length) e.ret1, Action.send fd jpg e.ret2,
          Action.send fd (ascii "\r\n") e.ret3].take
          (if e.ret1 ≤ 0 then 1 else if e.ret2 ≤ 0 then 2 else 3) ∧
    (handle_client_iter imencode fd q e).leave = true ∧
    (handle_client_iter imencode fd q e).shared.latest = e.woke.latest ∧
    (handle_client_iter imencode fd q e).shared.stop = e.woke.stop ∧
    handle_client imencode fd q ret0 (pre ++ e :: post)
      = (Action.send fd responseHeader ret0 :: (handle_client_loop imencode fd q pre).1
          ++ [Action.send fd (partHeader jpg.length) e.ret1, Action.send fd jpg e.ret2,
              Action.send fd (ascii "\r\n") e.ret3].take
              (if e.ret1 ≤ 0 then 1 else if e.ret2 ≤ 0 then 2 else 3)
          ++ [Action.close fd], true) := by
  obtain ⟨_, hlat, hst, _, _⟩ := readSlot_keeps _ _ _ hread
  have hiter : handle_client_iter imencode fd q e
      = if e.ret1 ≤ 0 then ⟨[Action.send fd (partHeader jpg.length) e.ret1], sh, true⟩
        else if e.ret2 ≤ 0 then
          ⟨[Action.send fd (partHeader jpg.length) e.ret1, Action.send fd jpg e.ret2], sh, true⟩
        else if e.ret3 ≤ 0 then
          ⟨[Action.send fd (partHeader jpg.length) e.ret1, Action.send fd jpg e.ret2,
            Action.send fd (ascii "\r\n") e.ret3], sh, true⟩
        else
          ⟨[Action.send fd (partHeader jpg.length) e.ret1, Action.send fd jpg e.ret2,
            Action.send fd (ascii "\r\n") e.ret3], sh, false⟩ := by
    unfold handle_client_iter
    simp only [h0, hread, hne, henc, Bool.false_eq_true, if_false]
  have hact : (handle_client_iter imencode fd q e).actions
      = [Action.send fd (partHeader jpg.length) e.ret1, Action.send fd jpg e.ret2,
          Action.send fd (ascii "\r\n") e.ret3].take
          (if e.ret1 ≤ 0 then 1 else if e.ret2 ≤ 0 then 2 else 3) := by
    rw [hiter]
    split_ifs <;> simp
  have hleave : (handle_client_iter imencode fd q e).leave = true := by
    rw [hiter]
    split_ifs with a b c
    · rfl
    · rfl
    · rfl
    · omega
  have hsh : (handle_client_iter imencode fd q e).shared = sh := by
    rw [hiter]
    split_ifs <;> rfl
  refine ⟨hact, hleave, by rw [hsh, hlat], by rw [hsh, hst], ?_⟩
  rw [handle_client_leaving imencode fd q ret0 pre post e hpre hleave, hact]

/-- C6 on a worker whose second pass fails to send the payload. -/
theorem write_failure_terminal_witness :
    handle_client sampleEncoder 5 80 1
      ([⟨false, ⟨whiteFrame, true, false⟩, 57, 16, 2⟩]
        ++ ⟨false, ⟨whiteFrame, true, false⟩, 57, 0, 2⟩
        :: [⟨false, ⟨blackFrame, true, false⟩, 57, 16, 2⟩])
      = (Action.send 5 responseHeader 1
          :: (handle_client_loop sampleEncoder 5 80
                [⟨false, ⟨whiteFrame, true, false⟩, 57, 16, 2⟩]).1
          ++ [Action.send 5 (partHeader 16) 57,
              Action.send 5 (0xFF :: 0xD8 :: whiteFrame.data ++ [0xFF, 0xD9]) 0,
              Action.send 5 (ascii "\r\n") 2].take 2
          ++ [Action.close 5], true) :=
  (write_failure_terminal sampleEncoder 5 80 1
    [⟨false, ⟨whiteFrame, true, false⟩, 57, 16, 2⟩]
    [⟨false, ⟨blackFrame, true, false⟩, 57, 16, 2⟩]
    ⟨false, ⟨whiteFrame, true, false⟩, 57, 0, 2⟩
    whiteFrame ⟨whiteFrame, false, false⟩ (0xFF :: 0xD8 :: whiteFrame.data ++ [0xFF, 0xD9])
    (by decide) rfl (by decide) (by decide) rfl (by decide)).2.2.2.2

/-- C8: in a pass of `handle_client` that finds the stop flag set, at the loop
condition or when the wait returns, no send is made, the loop is left, the
shared slot is not written, and the run of `handle_client` ends with the close
of the client socket, whatever `has_new` and the frame in the slot are. -/
theorem stop_ends_stream (imencode : Mat → Int → Option Bytes) (fd q ret0 : Int)
    (pre post : List IterEnv) (e : IterEnv)
    (hpre : (handle_client_loop imencode fd q pre).2 = false)
    (hstop : e.stopAtTest = true ∨ e.woke.stop = true) :
    (handle_client_iter imencode fd q e).actions = [] ∧
    (handle_client_iter imencode fd q e).leave = true ∧
    (handle_client_iter imencode fd q e).shared = e.woke ∧
    handle_client imencode fd q ret0 (pre ++ e :: post)
      = (Action.send fd responseHeader ret0 :: (handle_client_loop imencode fd q pre).1
          ++ [Action.close fd], true) := by
  have hiter : handle_client_iter imencode fd q e = ⟨[], e.woke, true⟩ := by
    unfold handle_client_iter
    by_cases h0 : e.stopAtTest = true
    · rw [if_pos h0]
    · rw [if_neg h0]
      have hs : e.woke.stop = true := hstop.resolve_left h0
      have hr : readSlot e.woke = none := by
        unfold readSlot
        rw [if_pos hs]
      rw [hr]
  have hleave : (handle_client_iter imencode fd q e).leave = true := by rw [hiter]
  refine ⟨by rw [hiter], hleave, by rw [hiter], ?_⟩
  rw [handle_client_leaving imencode fd q ret0 pre post e hpre hleave, hiter]
  simp

/-- C8 on a worker that finds the stop flag set when its wait returns, with a
new frame in the slot. -/
theorem stop_ends_stream_witness :
    handle_client sampleEncoder 5 80 1
      ([] ++ ⟨false, ⟨whiteFrame, true, true⟩, 57, 16, 2⟩
        :: [⟨false, ⟨blackFrame, true, false⟩, 57, 16, 2⟩])
      = (Action.send 5 responseHeader 1 :: (handle_client_loop sampleEncoder 5 80 []).1
          ++ [Action.close 5], true) :=
  (stop_ends_stream sampleEncoder 5 80 1 []
    [⟨false, ⟨blackFrame, true, false⟩, 57, 16, 2⟩]
    ⟨false, ⟨whiteFrame, true, true⟩, 57, 16, 2⟩ rfl (Or.inr rfl)).2.2.2

/-- C9: in a pass of `handle_client` that has read a non-empty frame and in
which the encoder fails, no send and no close is made, the loop is not left,
and the worker goes on with the next pass: the run is what it would be without
this pass, and a run that ends with this pass has not returned. -/
theorem encode_failure_skips (imencode : Mat → Int → Option Bytes) (fd q ret0 : Int)
    (pre post : List IterEnv) (e : IterEnv) (frame : Mat) (sh : SharedFrame)
    (hpre : (handle_client_loop imencode fd q pre).2 = false)
    (h0 : e.stopAtTest = false) (hread : readSlot e.woke = some (frame, sh))
    (hne : frame.empty = false) (henc : imencode frame q = none) :
    (handle_client_iter imencode fd q e).actions = [] ∧
    (handle_client_iter imencode fd q e).leave = false ∧
    handle_client imencode fd q ret0 (pre ++ e :: post)
      = handle_client imencode fd q ret0 (pre ++ post) ∧
    handle_client imencode fd q ret0 (pre ++ [e])
      = (Action.send fd responseHeader ret0 :: (handle_client_loop imencode fd q pre).1,
          false) := by
  have hiter : handle_client_iter imencode fd q e = ⟨[], sh, false⟩ := by
    unfold handle_client_iter
    simp only [h0, hread, hne, henc, Bool.false_eq_true, if_false]
  have hstay : (handle_client_iter imencode fd q e).leave = false := by rw [hiter]
  refine ⟨by rw [hiter], hstay, ?_, ?_⟩
  · unfold handle_client
    rw [handle_client_staying imencode fd q pre post e hpre hstay,
      handle_client_loop_append imencode fd q post pre hpre, hiter]
    simp
  · unfold handle_client
    rw [handle_client_staying imencode fd q pre [] e hpre hstay, hiter]
    simp [handle_client_loop]

/-- C9 on a worker whose encoder fails on the white frame. -/
theorem encode_failure_skips_witness :
    (handle_client_iter (fun _ _ => none) 5 80
      ⟨false, ⟨whiteFrame, true, false⟩, 57, 16, 2⟩).actions = [] ∧
    (handle_client_iter (fun _ _ => none) 5 80
      ⟨false, ⟨whiteFrame, true, false⟩, 57, 16, 2⟩).leave = false :=
  have h := encode_failure_skips (fun _ _ => none) 5 80 1 [] []
    ⟨false, ⟨whiteFrame, true, false⟩, 57, 16, 2⟩ whiteFrame ⟨whiteFrame, false, false⟩
    rfl rfl (by decide) (by decide) rfl
  ⟨h.1, h.2.1⟩

theorem http_server_loop_streams : ∀ envs : List AcceptEnv,
    (∀ e ∈ envs, e.stopAtTest = false ∧ 0 ≤ e.client_fd ∧ 0 < e.n ∧
      streamToken <+: firstLine (e.buf.take e.n.toNat)) →
    http_server_loop envs
      = (envs.map (fun e => Action.spawn_handle_client e.client_fd 80), false) := by
  intro envs
  induction envs with
  | nil => intro _; rfl
  | cons e es ih =>
    intro h
    obtain ⟨hstop, hacc, hn, htok⟩ := h e (List.mem_cons_self _ _)
    have hiter : http_server_iter e = ([Action.spawn_handle_client e.client_fd 80], false) := by
      unfold http_server_iter
      rw [if_neg (by simp [hstop]), if_neg (by omega), if_neg (by omega),
        if_pos ((stream_test_iff e).mpr htok)]
    simp only [http_server_loop, hiter, ih (fun x hx => h x (List.mem_cons_of_mem _ hx))]
    simp

theorem running_spawns (imencode : Mat → Int → Option Bytes) (traces : Int → List IterEnv)
    (hrun : ∀ fd, (handle_client_loop imencode fd 80 (traces fd)).2 = false) :
    ∀ envs : List AcceptEnv,
    running imencode traces (envs.map (fun e => Action.spawn_handle_client e.client_fd 80))
      = envs.length := by
  intro envs
  induction envs with
  | nil => rfl
  | cons e es ih =>
    simp only [List.map_cons, running, hrun, ih, List.length_cons]
    simp
    omega

theorem spawned_spawns : ∀ envs : List AcceptEnv,
    spawned (envs.map (fun e => Action.spawn_handle_client e.client_fd 80)) = envs.length := by
  intro envs
  induction envs with
  | nil => rfl
  | cons e es ih =>
    unfold spawned at ih ⊢
    simp only [List.map_cons, List.filter_cons_of_pos, List.length_cons, ih]

theorem http_server_setup_ok (server_fd bindRet listenRet : Int) (envs : List AcceptEnv)
    (h1 : 0 ≤ server_fd) (h2 : 0 ≤ bindRet) (h3 : 0 ≤ listenRet) :
    http_server server_fd bindRet listenRet envs
      = ((http_server_loop envs).1
          ++ (if (http_server_loop envs).2 then [Action.close server_fd] else []),
         (http_server_loop envs).2) := by
  unfold http_server
  rw [if_neg (by omega), if_neg (by omega), if_neg (by omega)]

/-- C7 fails on the code: no number bounds the workers that run at the same
time. For every N the accept loop, given N + 1 stream requests, starts N + 1
workers, none of which has left its loop. -/
theorem no_admission_cap :
    ¬ ∃ N : Nat, ∀ envs : List AcceptEnv,
      running sampleEncoder (fun _ => []) (http_server 3 0 0 envs).1 ≤ N := by
  rintro ⟨N, h⟩
  have hN := h ((List.range (N + 1)).map (fun i : Nat => streamRequest (4 + (i : Int))))
  rw [http_server_setup_ok 3 0 0 _ (by decide) (by decide) (by decide),
    http_server_loop_streams] at hN
  · simp only [Bool.false_eq_true, if_false, List.append_nil] at hN
    rw [running_spawns sampleEncoder (fun _ => []) (fun _ => rfl)] at hN
    simp at hN
  · intro e he
    simp only [List.mem_map, List.mem_range] at he
    obtain ⟨i, _, rfl⟩ := he
    refine ⟨rfl, ?_, ?_, ?_⟩
    · show (0 : Int) ≤ 4 + (i : Int)
      omega
    · show (0 : Int) < 22
      decide
    · show streamToken <+: firstLine ((ascii "GET /stream HTTP/1.1\r\n").take (22 : Int).toNat)
      decide

/-- C7 as amended: `http_server` has no limit on workers. For every sequence
of accepted stream requests, each request is given a new detached
`handle_client` worker and none is turned away: the server does nothing but
spawn, one worker per request, and as long as no worker has left its loop the
number of running workers is the number of requests. -/
theorem every_stream_request_gets_worker (server_fd bindRet listenRet : Int)
    (envs : List AcceptEnv) (imencode : Mat → Int → Option Bytes)
    (traces : Int → List IterEnv)
    (h1 : 0 ≤ server_fd) (h2 : 0 ≤ bindRet) (h3 : 0 ≤ listenRet)
    (hall : ∀ e ∈ envs, e.stopAtTest = false ∧ 0 ≤ e.client_fd ∧ 0 < e.n ∧
      streamToken <+: firstLine (e.buf.take e.n.toNat))
    (hrun : ∀ fd, (handle_client_loop imencode fd 80 (traces fd)).2 = false) :
    http_server server_fd bindRet listenRet envs
      = (envs.map (fun e => Action.spawn_handle_client e.client_fd 80), false) ∧
    spawned (http_server server_fd bindRet listenRet envs).1 = envs.length ∧
    running imencode traces (http_server server_fd bindRet listenRet envs).1
      = envs.length := by
  have hlog : http_server server_fd bindRet listenRet envs
      = (envs.map (fun e => Action.spawn_handle_client e.client_fd 80), false) := by
    rw [http_server_setup_ok server_fd bindRet listenRet envs h1 h2 h3,
      http_server_loop_streams envs hall]
    simp
  refine ⟨hlog, ?_, ?_⟩
  · rw [hlog]; exact spawned_spawns envs
  · rw [hlog]; exact running_spawns imencode traces hrun envs

/-- C7 as amended, on three stream requests in a row. -/
theorem every_stream_request_gets_worker_witness :
    http_server 3 0 0 [streamRequest 4, streamRequest 5, streamRequest 6]
      = ([Action.spawn_handle_client 4 80, Action.spawn_handle_client 5 80,
          Action.spawn_handle_client 6 80], false) :=
  (every_stream_request_gets_worker 3 0 0 [streamRequest 4, streamRequest 5, streamRequest 6]
    sampleEncoder (fun _ => []) (by decide) (by decide) (by decide) (by decide)
    (fun _ => rfl)).1

theorem servedCount_set (b : WorkerAt) : ∀ (ws : List WorkerAt) (i : Nat) (a : WorkerAt),
    ws.get? i = some a → a.isServed = false →
    servedCount (ws.set i b) = servedCount ws + (if b.isServed then 1 else 0) := by
  intro ws
  induction ws with
  | nil => intro i a h; simp at h
  | cons w ws ih =>
    intro i a h ha
    cases i with
    | zero =>
      simp only [List.get?_cons_zero, Option.some.injEq] at h
      subst h
      simp only [List.set_cons_zero, servedCount, List.countP_cons, ha]
      simp
    | succ i =>
      simp only [List.get?_cons_succ] at h
      have := ih i a h ha
      simp only [servedCount, List.set_cons_succ, List.countP_cons] at this ⊢
      omega

theorem servedCount_unblockNth : ∀ (ws : List WorkerAt) (k : Nat),
    servedCount (unblockNth k ws) = servedCount ws := by
  intro ws
  induction ws with
  | nil => intro k; cases k <;> rfl
  | cons w ws ih =>
    intro k
    have hk : ∀ n, List.countP WorkerAt.isServed (unblockNth n ws)
        = List.countP WorkerAt.isServed ws := ih
    cases w <;> cases k <;>
      simp only [unblockNth, servedCount, List.countP_cons, WorkerAt.isServed, hk]

theorem servedCount_notify_one (pick : Nat) (ws : List WorkerAt) :
    servedCount (notify_one pick ws) = servedCount ws := by
  unfold notify_one
  split_ifs
  · rfl
  · exact servedCount_unblockNth _ _

theorem passWait_served (s : SharedFrame) (hs : s.stop = false) :
    (passWait s).1.stop = false ∧ (passWait s).1.has_new = false ∧
    (passWait s).2.isServed = true := by
  simp [passWait, readSlot, hs, WorkerAt.isServed]

theorem wake_or_block (sys : Sys) (i : Nat) (a : WorkerAt) (hinv : OneServed sys)
    (hi : sys.workers.get? i = some a) (ha : a.isServed = false) :
    OneServed (if waitPredicate sys.shared then
        { shared := (passWait sys.shared).1, workers := sys.workers.set i (passWait sys.shared).2 }
      else { sys with workers := sys.workers.set i WorkerAt.blocked }) := by
  obtain ⟨hstop, hle, hnew⟩ := hinv
  obtain ⟨p1, p2, p3⟩ := passWait_served sys.shared hstop
  by_cases hp : waitPredicate sys.shared = true
  · rw [if_pos hp]
    have hn : sys.shared.has_new = true := by
      simpa [waitPredicate, hstop] using hp
    refine ⟨p1, ?_, ?_⟩
    · show servedCount (sys.workers.set i _) ≤ 1
      rw [servedCount_set _ _ _ _ hi ha, p3, hnew hn]
      simp
    · intro h
      rw [p2] at h
      exact absurd h (by simp)
  · rw [if_neg hp]
    have hc : servedCount (sys.workers.set i WorkerAt.blocked) = servedCount sys.workers := by
      rw [servedCount_set _ _ _ _ hi ha]
      simp [WorkerAt.isServed]
    exact ⟨hstop, by show servedCount (sys.workers.set i _) ≤ 1; rw [hc]; exact hle,
      fun h => by show servedCount (sys.workers.set i _) = 0; rw [hc]; exact hnew h⟩

theorem step_oneServed (sys : Sys) (ev : Event) (hev : ev.isWake = true)
    (hinv : OneServed sys) : OneServed (step sys ev) := by
  cases ev with
  | store f => simp [Event.isWake] at hev
  | timeout i => simp [Event.isWake] at hev
  | notify pick =>
    obtain ⟨hstop, hle, hnew⟩ := hinv
    refine ⟨hstop, ?_, ?_⟩
    · show servedCount (notify_one pick sys.workers) ≤ 1
      rw [servedCount_notify_one]; exact hle
    · intro h
      show servedCount (notify_one pick sys.workers) = 0
      rw [servedCount_notify_one]; exact hnew h
  | resume i =>
    simp only [step]
    split
    · next hi => exact wake_or_block sys i _ hinv hi rfl
    · exact hinv
  | spurious i =>
    simp only [step]
    split
    · next hi =>
      have := wake_or_block sys i _ hinv hi rfl
      split_ifs at this ⊢ with hp
      · exact this
      · exact hinv
    · exact hinv

theorem run_oneServed : ∀ (evs : List Event) (sys : Sys),
    (∀ ev ∈ evs, ev.isWake = true) → OneServed sys → OneServed (run sys evs) := by
  intro evs
  induction evs with
  | nil => intro sys _ h; exact h
  | cons ev evs ih =>
    intro sys hall h
    exact ih (step sys ev) (fun x hx => hall x (List.mem_cons_of_mem _ hx))
      (step_oneServed sys ev (hall ev (List.mem_cons_self _ _)) h)

theorem servedCount_replicate_blocked : ∀ n : Nat,
    servedCount (List.replicate n WorkerAt.blocked) = 0 := by
  intro n
  induction n with
  | zero => rfl
  | succ n ih =>
    simp only [servedCount, List.replicate_succ, List.countP_cons] at ih ⊢
    rw [ih]
    rfl

theorem one_store_serves_one (n : Nat) (frame : Mat) (evs : List Event) :
    servedCount (run ⟨SharedFrame.init, List.replicate n WorkerAt.blocked⟩
      (Event.store frame :: evs.filter Event.isWake)).workers ≤ 1 := by
  have h0 : OneServed (step ⟨SharedFrame.init, List.replicate n WorkerAt.blocked⟩
      (Event.store frame)) :=
    ⟨rfl, by
      show servedCount (List.replicate n WorkerAt.blocked) ≤ 1
      rw [servedCount_replicate_blocked]; omega,
     fun _ => servedCount_replicate_blocked n⟩
  have h := run_oneServed (evs.filter Event.isWake) _
    (fun ev hev => (List.mem_filter.mp hev).2) h0
  exact h.2.1

theorem notify_one_two_blocked (pick : Nat) :
    notify_one pick [WorkerAt.blocked, WorkerAt.blocked]
        = [WorkerAt.unblocked, WorkerAt.blocked] ∨
      notify_one pick [WorkerAt.blocked, WorkerAt.blocked]
        = [WorkerAt.blocked, WorkerAt.unblocked] := by
  have hc : blockedCount [WorkerAt.blocked, WorkerAt.blocked] = 2 := by decide
  unfold notify_one
  rw [hc, if_neg (by decide)]
  rcases Nat.mod_two_eq_zero_or_one pick with h | h
  · left; rw [h]; rfl
  · right; rw [h]; rfl

/-- C4 on the code: two workers are suspended in `wait_for` when the capture
thread stores a frame and calls `notify_one`. Whatever the scheduler picks,
exactly one worker is unblocked; once it has taken its copy and cleared
`has_new`, the other worker is still suspended, was never notified, and its
wait predicate is false: it is not served by the notification of this store,
only by its own 500 ms timeout. More generally, after one store, in every
schedule of notifications and wake-ups (no further store, no timeout) at most
one of the waiting workers gets a frame. -/
theorem notify_one_leaves_a_waiter :
    (∀ (n : Nat) (frame : Mat) (evs : List Event),
      servedCount (run ⟨SharedFrame.init, List.replicate n WorkerAt.blocked⟩
        (Event.store frame :: evs.filter Event.isWake)).workers ≤ 1) ∧
    (∀ pick : Nat,
      blockedCount (run ⟨SharedFrame.init, [WorkerAt.blocked, WorkerAt.blocked]⟩
        [Event.store whiteFrame, Event.notify pick]).workers = 1) ∧
    run ⟨SharedFrame.init, [WorkerAt.blocked, WorkerAt.blocked]⟩
        [Event.store whiteFrame, Event.notify 0, Event.resume 0]
      = ⟨⟨whiteFrame, false, false⟩, [WorkerAt.holds whiteFrame, WorkerAt.blocked]⟩ ∧
    run ⟨SharedFrame.init, [WorkerAt.blocked, WorkerAt.blocked]⟩
        [Event.store whiteFrame, Event.notify 1, Event.resume 1]
      = ⟨⟨whiteFrame, false, false⟩, [WorkerAt.blocked, WorkerAt.holds whiteFrame]⟩ ∧
    waitPredicate (run ⟨SharedFrame.init, [WorkerAt.blocked, WorkerAt.blocked]⟩
        [Event.store whiteFrame, Event.notify 0, Event.resume 0]).shared = false ∧
    run ⟨SharedFrame.init, [WorkerAt.blocked, WorkerAt.blocked]⟩
        [Event.store whiteFrame, Event.notify 0, Event.resume 0, Event.resume 1]
      = ⟨⟨whiteFrame, false, false⟩, [WorkerAt.holds whiteFrame, WorkerAt.blocked]⟩ ∧
    run ⟨SharedFrame.init, [WorkerAt.blocked, WorkerAt.blocked]⟩
        [Event.store whiteFrame, Event.notify 0, Event.resume 0, Event.timeout 1]
      = ⟨⟨whiteFrame, false, false⟩,
          [WorkerAt.holds whiteFrame, WorkerAt.holds whiteFrame]⟩ := by
  refine ⟨one_store_serves_one, ?_, by decide, by decide, by decide, by decide, by decide⟩
  intro pick
  have hrun : (run ⟨SharedFrame.init, [WorkerAt.blocked, WorkerAt.blocked]⟩
      [Event.store whiteFrame, Event.notify pick]).workers
      = notify_one pick [WorkerAt.blocked, WorkerAt.blocked] := rfl
  rw [hrun]
  rcases notify_one_two_blocked pick with h | h <;> rw [h] <;> decide

end CameraStream

end ASW
